import Mathlib

/-!
Shallow embedding of the Milo file-based router (Deno/TypeScript).

The embedded source is the current revision of the repository's single core
module (the one importing @std/cache): `createRoutes` (route compiler over a
directory tree), the `route` dispatcher closure (upgrade handling, LRU
resolution cache, linear scan with trailing-segment tie-break), and the
supporting path helpers from @std/path and URLPattern that those functions
call.

Modeling conventions:
* JS strings are Lean `String`s; all character-level helpers are written as
  structural recursion over `String.data` so that concrete instances reduce
  in the kernel.
* `URLPattern` objects are represented by their `pathname` pattern string;
  `URLPattern.exec` is modeled segment-wise (a literal segment must be equal,
  a `:name` segment captures any non-empty segment), which is the behavior of
  the pattern strings this compiler produces.
* Handlers are opaque: a handler is identified by the pair
  (module path, exported symbol name); the router never inspects handlers.
* The `LruCache` from @std/cache extends the JS `Map`, whose keys are
  compared with SameValueZero, i.e. array keys are compared by object
  identity.  The dispatcher builds a fresh `[url, request.method]` array at
  every call, so the model gives every constructed key an allocation id and
  compares keys by that id only; the key's string contents are carried along
  for stating properties about them.
-/

namespace Milo

/-- JS regex word character class (ASCII letters, digits, underscore). -/
def wordChar (c : Char) : Bool := c.isAlpha || c.isDigit || c = '_'

/-- Split a character list at every occurrence of a separator character
(the behavior of splitting a JS string on a one-character separator). -/
def splitCharAux (sep : Char) : List Char → List Char → List (List Char)
  | [], acc => [acc.reverse]
  | c :: rest, acc =>
    if c = sep then acc.reverse :: splitCharAux sep rest []
    else splitCharAux sep rest (c :: acc)

/-- The segments of a path string, splitting on every slash
(a path starting with a slash yields a leading empty segment). -/
def segsOf (s : String) : List String :=
  (splitCharAux '/' s.data []).map (fun l => String.mk l)

/-- One step of `routePath.replace` with the all-duplicate-slashes regex:
a slash that directly follows a slash is dropped. -/
def collapseAux : Option Char → List Char → List Char
  | _, [] => []
  | prev, c :: rest =>
    if c = '/' ∧ prev = some '/' then collapseAux prev rest
    else c :: collapseAux (some c) rest

/-- Collapse consecutive slashes to a single slash, as the compiler's
cleanup step does on every derived route path. -/
def collapseSlashes (s : String) : String := String.mk (collapseAux none s.data)

/-- Deno @std/path join as used by the compiler: joining with an empty base
returns the other component unchanged, otherwise the parts are separated by
a single slash. -/
def joinPath (a b : String) : String := if a = "" then b else a ++ "/" ++ b

/-- Node/Deno path.parse(...).name — the final path component without its
extension.  A name with no dot, or only a leading dot, is its own stem. -/
def fileStem (s : String) : String :=
  let revAfter := s.data.reverse.takeWhile (fun c => c ≠ '.')
  if revAfter.length = s.data.length then s
  else if revAfter.length + 1 = s.data.length then s
  else String.mk (s.data.take (s.data.length - (revAfter.length + 1)))

/-- Node/Deno path.parse(...).base — trailing slashes are skipped, then the
suffix after the last remaining slash is returned.  The dispatcher applies
this to the full request URL string and to pattern pathnames. -/
def pathBase (s : String) : String :=
  String.mk (((s.data.reverse.dropWhile (fun c => c = '/')).takeWhile (fun c => c ≠ '/')).reverse)

/-- Remove a trailing ".ts" or ".js" from a filename's characters. -/
def stripDotExt (l : List Char) : Option (List Char) :=
  match l.reverse with
  | 's' :: 't' :: '.' :: rest => some rest.reverse
  | 's' :: 'j' :: '.' :: rest => some rest.reverse
  | _ => none

/-- The compiler's filename regex for parameter modules: a filename whose
end matches a bracketed word followed by a ts/js extension captures the
word as the parameter name. -/
def paramMatch (name : String) : Option String :=
  match stripDotExt name.data with
  | none => none
  | some core =>
    match core.reverse with
    | ']' :: rest =>
      match rest.drop (rest.takeWhile wordChar).length with
      | '[' :: _ =>
        if (rest.takeWhile wordChar).isEmpty then none
        else some (String.mk (rest.takeWhile wordChar).reverse)
      | _ => none
    | _ => none

/-- The characters after the first "://" in a URL string, if any. -/
def dropScheme : List Char → Option (List Char)
  | ':' :: '/' :: '/' :: rest => some rest
  | _ :: rest => dropScheme rest
  | [] => none

/-- The pathname component of an absolute URL string, as URL parsing inside
URLPattern.exec extracts it: everything from the first slash after the
authority up to the first question mark or hash; a URL with no path
component has pathname "/". -/
def urlPathname (url : String) : String :=
  let rest := (dropScheme url.data).getD url.data
  let hostPath := rest.takeWhile (fun c => c ≠ '?' ∧ c ≠ '#')
  let path := hostPath.dropWhile (fun c => c ≠ '/')
  if path.isEmpty then "/" else String.mk path

/-- Captured route parameters: the groups object of a pattern match,
in pattern order. -/
abbrev Params := List (String × String)

/-- An opaque handler reference: the module path it was loaded from and the
exported symbol name.  The router never inspects a handler's body. -/
abbrev Handler := String × String

/-- A compiled route record: the URLPattern's pathname string, the optional
HTTP method, and the handler. -/
structure Route where
  pattern : String
  method : Option String
  handler : Handler
deriving DecidableEq, Repr

/-- The process-wide WebSocket event map: event name to handler, in
insertion order (a JS Map). -/
abbrev WsMap := List (String × Handler)

/-- Segment-wise pattern matching, as URLPattern.exec performs it on the
pattern pathnames this compiler emits: segment counts must agree, a literal
segment must be equal, and a capture segment (leading colon) accepts any
non-empty segment and records it under its name. -/
def matchSegs : List String → List String → Option Params
  | [], [] => some []
  | p :: ps, c :: cs =>
    match p.data with
    | ':' :: nm =>
      if c.isEmpty then none
      else (matchSegs ps cs).map (fun tl => (String.mk nm, c) :: tl)
    | _ => if p = c then matchSegs ps cs else none
  | _, _ => none

/-- route.pattern.exec(url): parse the URL, match its pathname against the
pattern pathname, and return the captured groups on success. -/
def execPattern (pat : String) (url : String) : Option Params :=
  matchSegs (segsOf pat) (segsOf (urlPathname url))

/-!
The resolution cache.  The source builds
`new LruCache<[string, string], [Route, Record<string, string|undefined>]>(1000)`.
@std/cache's LruCache extends the JS Map; a Map compares keys with
SameValueZero, so two `[url, method]` arrays allocated by different
evaluations of the literal are distinct keys even when their contents are
equal.  A key is therefore modeled as the array's allocation id together
with its two string elements, and key comparison uses the id alone.  The
cache state carries the next allocation id so that every key the dispatcher
builds is fresh.
-/

/-- A `[url, method]` array key: its object identity (allocation id) and
its contents. -/
abbrev CacheKey := Nat × String × String

/-- A cached resolution: the selected route and its captured parameters. -/
abbrev CacheVal := Route × Params

/-- JS Map key comparison for array keys: object identity. -/
def keyEq (a b : CacheKey) : Bool := a.1 = b.1

/-- The cache capacity passed to the LruCache constructor. -/
def cacheCapacity : Nat := 1000

/-- The LruCache's entry list in Map iteration order (least recently used
first), plus the allocator for fresh array-key identities. -/
structure CacheState where
  entries : List (CacheKey × CacheVal)
  nextId : Nat
deriving DecidableEq, Repr

/-- Map.prototype.has, as LruCache inherits it. -/
def cacheHas (es : List (CacheKey × CacheVal)) (k : CacheKey) : Bool :=
  es.any (fun e => keyEq e.1 k)

/-- Map.prototype.delete on the entry list. -/
def eraseKey (es : List (CacheKey × CacheVal)) (k : CacheKey) :
    List (CacheKey × CacheVal) :=
  es.filter (fun e => !keyEq e.1 k)

/-- LruCache.get: on a hit the entry is moved to most-recently-used
position and its value returned; on a miss the state is unchanged. -/
def lruGet (es : List (CacheKey × CacheVal)) (k : CacheKey) :
    Option CacheVal × List (CacheKey × CacheVal) :=
  match es.find? (fun e => keyEq e.1 k) with
  | some e => (some e.2, eraseKey es k ++ [e])
  | none => (none, es)

/-- LruCache.set: delete any entry with the same key, append the new entry
as most recently used, and if over capacity evict the least recently used
entry. -/
def lruSet (es : List (CacheKey × CacheVal)) (k : CacheKey) (v : CacheVal) :
    List (CacheKey × CacheVal) :=
  let es1 := eraseKey es k ++ [(k, v)]
  if cacheCapacity < es1.length then es1.tail else es1

/-- Every key identity stored in the cache was allocated before the next
fresh id: the invariant maintained by the dispatcher, which only ever
inserts freshly built array keys. -/
def CacheState.fresh (s : CacheState) : Prop :=
  ∀ e ∈ s.entries, e.1.1 < s.nextId

/-- An HTTP request as the dispatcher reads it: its full URL string, its
method, and the value of its upgrade header (none when absent). -/
structure Request where
  url : String
  method : String
  upgrade : Option String
deriving DecidableEq, Repr

/-- What the dispatcher does with one request: upgrade the connection and
attach every event-map entry as a listener, serve from the cache-hit
branch, serve a freshly scanned route, crash on the non-null assertion in
the hit branch, or fall back to the default handler. -/
inductive DispatchOutcome where
  | upgraded (listeners : WsMap)
  | cacheHit (r : Route) (params : Params)
  | handled (r : Route) (params : Params)
  | crashed
  | defaulted
deriving DecidableEq, Repr

/-- The dispatcher's candidate collection loop: a route is kept when its
pattern execs against the URL and the request method equals the route
method (GET when the route has none), keeping scan order. -/
def matchedRoutes (routes : List Route) (req : Request) :
    List (Route × Params) :=
  routes.filterMap (fun r =>
    match execPattern r.pattern req.url with
    | some ps => if req.method = r.method.getD "GET" then some (r, ps) else none
    | none => none)

/-- The tie-break comparison: the base of the route's pattern pathname
against the base of the full request URL string. -/
def tieCond (req : Request) (m : Route × Params) : Bool :=
  pathBase m.1.pattern = pathBase req.url

/-- The dispatcher's best-match loop: every match whose pattern base equals
the URL base overwrites the current best, so the final value is the last
such match, or none. -/
def bestMatch (req : Request) (l : List (Route × Params)) :
    Option (Route × Params) :=
  l.foldl (fun acc m => if tieCond req m then some m else acc) none

/-- The request handler returned by `route`: upgrade requests are answered
by the WebSocket fan-out at once; otherwise the cache is consulted under a
freshly allocated array key, and on a miss the route list is scanned, the
tie-break applied, the selection cached under another fresh array key, and
the handler invoked; with no match the default handler answers. -/
def dispatch (routes : List Route) (wsall : WsMap) (s : CacheState)
    (req : Request) : DispatchOutcome × CacheState :=
  if req.upgrade = some "websocket" then
    (.upgraded wsall, s)
  else
    let k1 : CacheKey := (s.nextId, req.url, req.method)
    let s1 : CacheState := ⟨s.entries, s.nextId + 1⟩
    if cacheHas s1.entries k1 then
      let k2 : CacheKey := (s1.nextId, req.url, req.method)
      match lruGet s1.entries k2 with
      | (some v, es2) => (.cacheHit v.1 v.2, ⟨es2, s1.nextId + 1⟩)
      | (none, es2) => (.crashed, ⟨es2, s1.nextId + 1⟩)
    else
      match matchedRoutes routes req with
      | [] => (.defaulted, s1)
      | m0 :: ms =>
        let sel := (bestMatch req (m0 :: ms)).getD m0
        (.handled sel.1 sel.2,
          ⟨lruSet s1.entries (s1.nextId, req.url, req.method) (sel.1, sel.2),
            s1.nextId + 1⟩)

/-- Pure cache-free resolution: scan, tie-break, and report the selected
route and parameters, or none when no route matches. -/
def resolve (routes : List Route) (req : Request) : Option (Route × Params) :=
  match matchedRoutes routes req with
  | [] => none
  | m0 :: ms => some ((bestMatch req (m0 :: ms)).getD m0)

/-- The route/params pair a dispatch outcome hands to a route handler, if
any. -/
def outcomeSelection : DispatchOutcome → Option (Route × Params)
  | .cacheHit r p => some (r, p)
  | .handled r p => some (r, p)
  | _ => none

/-!
The route compiler `createRoutes`.  The directory traversal and dynamic
module import are external collaborators; a directory listing is modeled
as a value of `FsDir`: a sequence of entries, each a file (with the names
of its exported symbols) or a subdirectory with its own listing.  All
exported symbols are taken to be functions, which is the case the compiler
is written for (its default-export check also tests `typeof`).
-/

/-- A directory listing: the stream of entries `createRoutes` iterates, in
iteration order.  `file` carries the exported symbol names of the module
("default" for a default export); `dir` carries the nested listing. -/
inductive FsDir where
  | nil : FsDir
  | file (name : String) (exports : List String) (rest : FsDir) : FsDir
  | dir (name : String) (sub : FsDir) (rest : FsDir) : FsDir
deriving DecidableEq, Repr

/-- The fixed method-export list the compiler recognizes. -/
def httpMethods : List String := ["GET", "POST", "PUT", "DELETE", "PATCH"]

/-- The route path derived for one module filename under an accumulated
base path: the index file maps to the base path itself (root index to
"/"), a bracketed parameter filename appends a trailing capture segment,
any other filename appends its stem; duplicate slashes are then
collapsed. -/
def routePathFor (basePath name : String) : String :=
  let raw :=
    if name = "index.ts" then
      if basePath = "" then "/" else "/" ++ basePath
    else
      match paramMatch name with
      | some p => if basePath = "" then "/:" ++ p else "/" ++ basePath ++ "/:" ++ p
      | none => "/" ++ basePath ++ "/" ++ fileStem name
  collapseSlashes raw

/-- JS Map.set on the event map: an existing key's value is replaced in
place, a new key is appended. -/
def wsSet (w : WsMap) (k : String) (v : Handler) : WsMap :=
  if w.any (fun e => e.1 = k) then
    w.map (fun e => if e.1 = k then (k, v) else e)
  else w ++ [(k, v)]

/-- Map.get on the event map. -/
def wsLookup (w : WsMap) (k : String) : Option Handler :=
  (w.find? (fun e => e.1 = k)).map (fun e => e.2)

/-- The compiler's file branch: a module exporting a default function or
any recognized method contributes one route per exported method (the
default export registered under GET) at the derived path; otherwise the
designated "+ws.ts" module registers each exported symbol as an event
handler under its own name; any other module is reported and skipped. -/
def processFile (path basePath : String) (acc : List Route × WsMap)
    (name : String) (exports : List String) : List Route × WsMap :=
  let modulePath := joinPath path name
  if exports.contains "default" || httpMethods.any (fun m => exports.contains m) then
    let rp := routePathFor basePath name
    let newRoutes := (httpMethods ++ ["default"]).filterMap (fun m =>
      if exports.contains m then
        some { pattern := rp,
               method := some (if m = "default" then "GET" else m),
               handler := (modulePath, m) : Route }
      else none)
    (acc.1 ++ newRoutes, acc.2)
  else if name = "+ws.ts" then
    (acc.1, exports.foldl (fun w evt => wsSet w evt (modulePath, evt)) acc.2)
  else
    acc

/-- The traversal loop of createRoutes: files are compiled in place; a
subdirectory is recursed into with the joined path and the joined base
path (using the directory's stem), its routes concatenated and its event
map discarded. -/
def createRoutesAux (path basePath : String) (acc : List Route × WsMap) :
    FsDir → List Route × WsMap
  | .nil => acc
  | .file name exports rest =>
    createRoutesAux path basePath (processFile path basePath acc name exports) rest
  | .dir name sub rest =>
    let nested := createRoutesAux (joinPath path name)
      (joinPath basePath (fileStem (pathBase (joinPath path name)))) ([], []) sub
    createRoutesAux path basePath (acc.1 ++ nested.1, acc.2) rest

/-- createRoutes: compile a directory listing into the route list and the
WebSocket event map. -/
def createRoutes (path basePath : String) (entries : FsDir) :
    List Route × WsMap :=
  createRoutesAux path basePath ([], []) entries

/-! General lemmas about the model. -/

theorem foldl_choice_eq {α : Type} (f : α → Bool) :
    ∀ (l : List α) (acc : Option α),
      l.foldl (fun a m => if f m then some m else a) acc =
        ((l.filter f).getLast?).elim acc some := by
  intro l
  induction l with
  | nil => intro acc; simp
  | cons x xs ih =>
    intro acc
    rw [List.foldl_cons, ih]
    cases hx : f x with
    | true =>
      simp only [List.filter_cons, hx, if_true]
      cases hfx : xs.filter f with
      | nil => simp
      | cons y ys =>
        rw [List.getLast?_cons_cons]
        cases hgl : (y :: ys).getLast? with
        | none => simp at hgl
        | some z => simp
    | false =>
      simp [List.filter_cons, hx]

/-- The best-match loop keeps the last structurally eligible match whose
pattern base equals the URL base. -/
theorem bestMatch_eq_getLast (req : Request) (l : List (Route × Params)) :
    bestMatch req l = (l.filter (tieCond req)).getLast? := by
  rw [bestMatch, foldl_choice_eq]
  cases (l.filter (tieCond req)).getLast? <;> simp

/-- Under the freshness invariant, a lookup with a freshly allocated array
key never finds an entry: array keys are compared by identity. -/
theorem cacheHas_fresh {s : CacheState} (hf : s.fresh) (u m : String) :
    cacheHas s.entries (s.nextId, u, m) = false := by
  rw [cacheHas, List.any_eq_false]
  intro e he
  have h1 := hf e he
  simp only [keyEq, decide_eq_true_eq]
  omega

/-- With a fresh cache state and a non-upgrade request, the dispatcher
takes the scan path. -/
theorem dispatch_miss {routes : List Route} {ws : WsMap} {s : CacheState}
    {req : Request} (hf : s.fresh) (hup : req.upgrade ≠ some "websocket") :
    dispatch routes ws s req =
      match matchedRoutes routes req with
      | [] => (.defaulted, ⟨s.entries, s.nextId + 1⟩)
      | m0 :: ms =>
        (.handled ((bestMatch req (m0 :: ms)).getD m0).1
            ((bestMatch req (m0 :: ms)).getD m0).2,
          ⟨lruSet s.entries (s.nextId + 1, req.url, req.method)
              (((bestMatch req (m0 :: ms)).getD m0).1,
                ((bestMatch req (m0 :: ms)).getD m0).2),
            s.nextId + 2⟩) := by
  unfold dispatch
  rw [if_neg hup]
  simp only [cacheHas_fresh hf, Bool.false_eq_true, if_false]

/-- Membership in the candidate list of the scan loop. -/
theorem mem_matchedRoutes {routes : List Route} {req : Request}
    {m : Route × Params} :
    m ∈ matchedRoutes routes req ↔
      m.1 ∈ routes ∧ execPattern m.1.pattern req.url = some m.2 ∧
        req.method = m.1.method.getD "GET" := by
  simp only [matchedRoutes, List.mem_filterMap]
  constructor
  · rintro ⟨r, hr, hfr⟩
    cases hex : execPattern r.pattern req.url with
    | none => simp [hex] at hfr
    | some ps =>
      simp only [hex] at hfr
      by_cases hm : req.method = r.method.getD "GET"
      · simp only [if_pos hm] at hfr
        cases hfr
        exact ⟨hr, hex, hm⟩
      · simp [if_neg hm] at hfr
  · rintro ⟨hr, hex, hm⟩
    exact ⟨m.1, hr, by simp [hex, hm]⟩

theorem mem_of_mem_tail' {α : Type} {a : α} {l : List α}
    (h : a ∈ l.tail) : a ∈ l := by
  cases l with
  | nil => cases h
  | cons x xs => exact List.mem_cons_of_mem x h

/-- Every entry of the cache after a set is an old entry or the new one. -/
theorem mem_lruSet {es : List (CacheKey × CacheVal)} {k : CacheKey}
    {v : CacheVal} {e : CacheKey × CacheVal} (he : e ∈ lruSet es k v) :
    e ∈ es ∨ e = (k, v) := by
  unfold lruSet at he
  have he' : e ∈ eraseKey es k ++ [(k, v)] := by
    by_cases hc : cacheCapacity < (eraseKey es k ++ [(k, v)]).length
    · rw [if_pos hc] at he; exact mem_of_mem_tail' he
    · rwa [if_neg hc] at he
  rcases List.mem_append.1 he' with h1 | h2
  · exact Or.inl (List.mem_of_mem_filter h1)
  · simp only [List.mem_singleton] at h2; exact Or.inr h2

/-- Dispatching preserves the freshness invariant. -/
theorem dispatch_fresh {routes : List Route} {ws : WsMap} {s : CacheState}
    {req : Request} (hf : s.fresh) : (dispatch routes ws s req).2.fresh := by
  by_cases hup : req.upgrade = some "websocket"
  · simp only [dispatch, hup, if_pos rfl]
    exact hf
  · rw [dispatch_miss hf hup]
    cases hm : matchedRoutes routes req with
    | nil =>
      intro e he
      have := hf e he
      simp only []
      omega
    | cons m0 ms =>
      intro e he
      simp only [] at he ⊢
      rcases mem_lruSet he with h1 | h2
      · have := hf e h1; omega
      · subst h2; simp

/-! Claim theorems. -/

/-- C1: for every non-upgrade request against a cache state whose stored
keys are all previously allocated, the dispatcher's selected route/params
pair equals the pure cache-free scan result, and re-dispatching the same
request against the resulting cache state selects the identical pair: the
cache never changes which handler and which parameters are selected. -/
theorem dispatch_cache_transparent (routes : List Route) (ws : WsMap)
    (s : CacheState) (req : Request) (hf : s.fresh)
    (hup : req.upgrade ≠ some "websocket") :
    outcomeSelection (dispatch routes ws s req).1 = resolve routes req ∧
    outcomeSelection (dispatch routes ws (dispatch routes ws s req).2 req).1 =
      resolve routes req := by
  have key : ∀ s' : CacheState, s'.fresh →
      outcomeSelection (dispatch routes ws s' req).1 = resolve routes req := by
    intro s' hf'
    rw [dispatch_miss hf' hup]
    cases hm : matchedRoutes routes req with
    | nil => simp [hm, outcomeSelection, resolve]
    | cons m0 ms => simp [hm, outcomeSelection, resolve]
  exact ⟨key s hf, key _ (dispatch_fresh hf)⟩

theorem dispatch_cache_transparent_witness :
    (⟨[], 0⟩ : CacheState).fresh ∧
    ({ url := "http://localhost:8000/api/posts/7", method := "GET",
        upgrade := none } : Request).upgrade ≠ some "websocket" ∧
    (outcomeSelection
        (dispatch
          [{ pattern := "/api/posts/:id", method := some "GET",
              handler := ("tests/api/posts/[id].ts", "GET") }] [] ⟨[], 0⟩
          { url := "http://localhost:8000/api/posts/7", method := "GET",
            upgrade := none }).1 =
      resolve
        [{ pattern := "/api/posts/:id", method := some "GET",
            handler := ("tests/api/posts/[id].ts", "GET") }]
        { url := "http://localhost:8000/api/posts/7", method := "GET",
          upgrade := none } ∧
    outcomeSelection
        (dispatch
          [{ pattern := "/api/posts/:id", method := some "GET",
              handler := ("tests/api/posts/[id].ts", "GET") }] []
          (dispatch
            [{ pattern := "/api/posts/:id", method := some "GET",
                handler := ("tests/api/posts/[id].ts", "GET") }] [] ⟨[], 0⟩
            { url := "http://localhost:8000/api/posts/7", method := "GET",
              upgrade := none }).2
          { url := "http://localhost:8000/api/posts/7", method := "GET",
            upgrade := none }).1 =
      resolve
        [{ pattern := "/api/posts/:id", method := some "GET",
            handler := ("tests/api/posts/[id].ts", "GET") }]
        { url := "http://localhost:8000/api/posts/7", method := "GET",
          upgrade := none }) :=
  ⟨fun e he => absurd he (List.not_mem_nil e), by decide,
    dispatch_cache_transparent _ _ _ _
      (fun e he => absurd he (List.not_mem_nil e)) (by decide)⟩

/-- C2: evaluation of the dispatcher at a concrete repeated request.  The
first dispatch of GET http://localhost:8000/api/posts/7 resolves by
scanning and inserts a cache entry whose key contents are exactly
(url, method); the second, identical dispatch nevertheless takes the scan
branch again (outcome `handled`, never `cacheHit`) and inserts a second
entry with the same key contents, because the lookup compares the freshly
allocated array key by object identity.  The spec's cache-hit behavior on
repeat traffic never occurs. -/
theorem cache_hit_branch_never_taken_bug :
    (dispatch
        [{ pattern := "/api/posts/:id", method := some "GET",
            handler := ("tests/api/posts/[id].ts", "GET") }] [] ⟨[], 0⟩
        { url := "http://localhost:8000/api/posts/7", method := "GET",
          upgrade := none }).1 =
      .handled
        { pattern := "/api/posts/:id", method := some "GET",
          handler := ("tests/api/posts/[id].ts", "GET") } [("id", "7")] ∧
    (dispatch
        [{ pattern := "/api/posts/:id", method := some "GET",
            handler := ("tests/api/posts/[id].ts", "GET") }] [] ⟨[], 0⟩
        { url := "http://localhost:8000/api/posts/7", method := "GET",
          upgrade := none }).2.entries.map (fun e => e.1.2) =
      [("http://localhost:8000/api/posts/7", "GET")] ∧
    (dispatch
        [{ pattern := "/api/posts/:id", method := some "GET",
            handler := ("tests/api/posts/[id].ts", "GET") }] []
        (dispatch
          [{ pattern := "/api/posts/:id", method := some "GET",
              handler := ("tests/api/posts/[id].ts", "GET") }] [] ⟨[], 0⟩
          { url := "http://localhost:8000/api/posts/7", method := "GET",
            upgrade := none }).2
        { url := "http://localhost:8000/api/posts/7", method := "GET",
          upgrade := none }).1 =
      .handled
        { pattern := "/api/posts/:id", method := some "GET",
          handler := ("tests/api/posts/[id].ts", "GET") } [("id", "7")] ∧
    (dispatch
        [{ pattern := "/api/posts/:id", method := some "GET",
            handler := ("tests/api/posts/[id].ts", "GET") }] []
        (dispatch
          [{ pattern := "/api/posts/:id", method := some "GET",
              handler := ("tests/api/posts/[id].ts", "GET") }] [] ⟨[], 0⟩
          { url := "http://localhost:8000/api/posts/7", method := "GET",
            upgrade := none }).2
        { url := "http://localhost:8000/api/posts/7", method := "GET",
          upgrade := none }).2.entries.map (fun e => e.1.2) =
      [("http://localhost:8000/api/posts/7", "GET"),
        ("http://localhost:8000/api/posts/7", "GET")] := by
  refine ⟨by decide, by decide, by decide, by decide⟩

/-- C6: a request whose upgrade header equals "websocket" is answered by
the upgrade branch alone: the event map is fanned out onto the connection,
the cache state is untouched, and the result does not depend on the route
table at all — no route matching, no cache lookup or insertion, no handler
or default-handler invocation. -/
theorem dispatch_upgrade_immediate (routes routes' : List Route) (ws : WsMap)
    (s : CacheState) (req : Request)
    (hup : req.upgrade = some "websocket") :
    dispatch routes ws s req = (.upgraded ws, s) ∧
    dispatch routes ws s req = dispatch routes' ws s req := by
  constructor <;> simp [dispatch, hup]

theorem dispatch_upgrade_immediate_witness :
    ({ url := "http://localhost:8000/api/posts/7", method := "GET",
        upgrade := some "websocket" } : Request).upgrade = some "websocket" ∧
    (dispatch
        [{ pattern := "/api/posts/:id", method := some "GET",
            handler := ("tests/api/posts/[id].ts", "GET") }]
        [("message", ("tests/api/+ws.ts", "message"))] ⟨[], 0⟩
        { url := "http://localhost:8000/api/posts/7", method := "GET",
          upgrade := some "websocket" } =
      (.upgraded [("message", ("tests/api/+ws.ts", "message"))], ⟨[], 0⟩) ∧
    dispatch
        [{ pattern := "/api/posts/:id", method := some "GET",
            handler := ("tests/api/posts/[id].ts", "GET") }]
        [("message", ("tests/api/+ws.ts", "message"))] ⟨[], 0⟩
        { url := "http://localhost:8000/api/posts/7", method := "GET",
          upgrade := some "websocket" } =
      dispatch [] [("message", ("tests/api/+ws.ts", "message"))] ⟨[], 0⟩
        { url := "http://localhost:8000/api/posts/7", method := "GET",
          upgrade := some "websocket" }) :=
  ⟨rfl, dispatch_upgrade_immediate _ _ _ _ _ rfl⟩

/-- C7: a non-upgrade request matching no route is answered by the default
handler, and no cache insertion happens: the cache entry list after the
dispatch is exactly the one before. -/
theorem dispatch_nomatch_default (routes : List Route) (ws : WsMap)
    (s : CacheState) (req : Request) (hf : s.fresh)
    (hup : req.upgrade ≠ some "websocket")
    (hm : matchedRoutes routes req = []) :
    (dispatch routes ws s req).1 = .defaulted ∧
    (dispatch routes ws s req).2.entries = s.entries := by
  rw [dispatch_miss hf hup]
  simp [hm]

theorem dispatch_nomatch_default_witness :
    (⟨[], 0⟩ : CacheState).fresh ∧
    ({ url := "http://localhost:8000/api/blog/42", method := "GET",
        upgrade := none } : Request).upgrade ≠ some "websocket" ∧
    matchedRoutes
        [{ pattern := "/api/blog/:id", method := some "POST",
            handler := ("routes/api/blog/[id].ts", "POST") }]
        { url := "http://localhost:8000/api/blog/42", method := "GET",
          upgrade := none } = [] ∧
    ((dispatch
        [{ pattern := "/api/blog/:id", method := some "POST",
            handler := ("routes/api/blog/[id].ts", "POST") }] [] ⟨[], 0⟩
        { url := "http://localhost:8000/api/blog/42", method := "GET",
          upgrade := none }).1 = .defaulted ∧
      (dispatch
        [{ pattern := "/api/blog/:id", method := some "POST",
            handler := ("routes/api/blog/[id].ts", "POST") }] [] ⟨[], 0⟩
        { url := "http://localhost:8000/api/blog/42", method := "GET",
          upgrade := none }).2.entries = (⟨[], 0⟩ : CacheState).entries) :=
  ⟨fun e he => absurd he (List.not_mem_nil e), by decide, by decide,
    dispatch_nomatch_default _ _ _ _
      (fun e he => absurd he (List.not_mem_nil e)) (by decide) (by decide)⟩

/-- C3: for a non-upgrade request with two or more structurally eligible
matches, if exactly one match has a pattern base equal to the request's
trailing segment the dispatcher selects that match, and if no match has
trailing-segment equality the dispatcher selects the first match in scan
order. -/
theorem dispatch_tiebreak_unique_or_first (routes : List Route) (ws : WsMap)
    (s : CacheState) (req : Request) (hf : s.fresh)
    (hup : req.upgrade ≠ some "websocket")
    (_h2 : 2 ≤ (matchedRoutes routes req).length) :
    (∀ m, (matchedRoutes routes req).filter (tieCond req) = [m] →
      (dispatch routes ws s req).1 = .handled m.1 m.2) ∧
    ((matchedRoutes routes req).filter (tieCond req) = [] →
      ∀ m0 ms, matchedRoutes routes req = m0 :: ms →
        (dispatch routes ws s req).1 = .handled m0.1 m0.2) := by
  constructor
  · intro m hfil
    have hne : matchedRoutes routes req ≠ [] := by
      intro h; rw [h] at hfil; simp at hfil
    obtain ⟨m0, ms, hm⟩ := List.exists_cons_of_ne_nil hne
    have hb : bestMatch req (m0 :: ms) = some m := by
      rw [bestMatch_eq_getLast, ← hm, hfil]
      simp
    rw [dispatch_miss hf hup]
    simp [hm, hb]
  · intro hfil m0 ms hm
    have hb : bestMatch req (m0 :: ms) = none := by
      rw [bestMatch_eq_getLast, ← hm, hfil]
      simp
    rw [dispatch_miss hf hup]
    simp [hm, hb]

theorem dispatch_tiebreak_unique_or_first_witness :
    2 ≤ (matchedRoutes
        [{ pattern := "/a/:id", method := some "GET", handler := ("r/[id].ts", "GET") },
          { pattern := "/a/post", method := some "GET", handler := ("r/post.ts", "default") }]
        { url := "http://h/a/post", method := "GET", upgrade := none }).length ∧
    (dispatch
        [{ pattern := "/a/:id", method := some "GET", handler := ("r/[id].ts", "GET") },
          { pattern := "/a/post", method := some "GET", handler := ("r/post.ts", "default") }]
        [] ⟨[], 0⟩
        { url := "http://h/a/post", method := "GET", upgrade := none }).1 =
      .handled
        { pattern := "/a/post", method := some "GET", handler := ("r/post.ts", "default") }
        [] :=
  ⟨by decide,
    (dispatch_tiebreak_unique_or_first _ _ _ _
        (fun e he => absurd he (List.not_mem_nil e)) (by decide) (by decide)).1
      ({ pattern := "/a/post", method := some "GET", handler := ("r/post.ts", "default") }, [])
      (by decide)⟩

/-- C9: among the structurally eligible matches of a non-upgrade request,
when at least one match has trailing-segment equality the dispatcher
selects the last such match in scan order — with several distinct such
matches this is not the first one — and only when no match has trailing
equality does the first match in scan order win. -/
theorem dispatch_tiebreak_last (routes : List Route) (ws : WsMap)
    (s : CacheState) (req : Request) (hf : s.fresh)
    (hup : req.upgrade ≠ some "websocket") :
    (∀ mf rest m,
      (matchedRoutes routes req).filter (tieCond req) = mf :: rest →
      (mf :: rest).getLast? = some m →
      (dispatch routes ws s req).1 = .handled m.1 m.2 ∧
        (mf ≠ m → (dispatch routes ws s req).1 ≠ .handled mf.1 mf.2)) ∧
    ((matchedRoutes routes req).filter (tieCond req) = [] →
      ∀ m0 ms, matchedRoutes routes req = m0 :: ms →
        (dispatch routes ws s req).1 = .handled m0.1 m0.2) := by
  constructor
  · intro mf rest m hfil hlast
    have hne : matchedRoutes routes req ≠ [] := by
      intro h; rw [h] at hfil; simp at hfil
    obtain ⟨m0, ms, hm⟩ := List.exists_cons_of_ne_nil hne
    have hb : bestMatch req (m0 :: ms) = some m := by
      rw [bestMatch_eq_getLast, ← hm, hfil, hlast]
    have hout : (dispatch routes ws s req).1 = .handled m.1 m.2 := by
      rw [dispatch_miss hf hup]
      simp [hm, hb]
    refine ⟨hout, fun hne' hcon => ?_⟩
    rw [hout] at hcon
    injection hcon with h1 h2
    exact hne' (Prod.ext h1.symm h2.symm)
  · intro hfil m0 ms hm
    have hb : bestMatch req (m0 :: ms) = none := by
      rw [bestMatch_eq_getLast, ← hm, hfil]
      simp
    rw [dispatch_miss hf hup]
    simp [hm, hb]

theorem dispatch_tiebreak_last_witness :
    (matchedRoutes
        [{ pattern := "/a/post", method := some "GET", handler := ("r1/post.ts", "default") },
          { pattern := "/a/post", method := some "GET", handler := ("r2/post.ts", "default") }]
        { url := "http://h/a/post", method := "GET", upgrade := none }).filter
        (tieCond { url := "http://h/a/post", method := "GET", upgrade := none }) =
      [({ pattern := "/a/post", method := some "GET", handler := ("r1/post.ts", "default") }, []),
        ({ pattern := "/a/post", method := some "GET", handler := ("r2/post.ts", "default") }, [])] ∧
    (dispatch
        [{ pattern := "/a/post", method := some "GET", handler := ("r1/post.ts", "default") },
          { pattern := "/a/post", method := some "GET", handler := ("r2/post.ts", "default") }]
        [] ⟨[], 0⟩
        { url := "http://h/a/post", method := "GET", upgrade := none }).1 =
      .handled
        { pattern := "/a/post", method := some "GET", handler := ("r2/post.ts", "default") } [] ∧
    (dispatch
        [{ pattern := "/a/post", method := some "GET", handler := ("r1/post.ts", "default") },
          { pattern := "/a/post", method := some "GET", handler := ("r2/post.ts", "default") }]
        [] ⟨[], 0⟩
        { url := "http://h/a/post", method := "GET", upgrade := none }).1 ≠
      .handled
        { pattern := "/a/post", method := some "GET", handler := ("r1/post.ts", "default") } [] :=
  ⟨by decide,
    ((dispatch_tiebreak_last _ _ _ _
        (fun e he => absurd he (List.not_mem_nil e)) (by decide)).1
      ({ pattern := "/a/post", method := some "GET", handler := ("r1/post.ts", "default") }, [])
      [({ pattern := "/a/post", method := some "GET", handler := ("r2/post.ts", "default") }, [])]
      ({ pattern := "/a/post", method := some "GET", handler := ("r2/post.ts", "default") }, [])
      (by decide) (by decide)).1,
    ((dispatch_tiebreak_last _ _ _ _
        (fun e he => absurd he (List.not_mem_nil e)) (by decide)).1
      ({ pattern := "/a/post", method := some "GET", handler := ("r1/post.ts", "default") }, [])
      [({ pattern := "/a/post", method := some "GET", handler := ("r2/post.ts", "default") }, [])]
      ({ pattern := "/a/post", method := some "GET", handler := ("r2/post.ts", "default") }, [])
      (by decide) (by decide)).2 (by decide)⟩

/-- C4: a route is a candidate for a cache-missing standard request exactly
when its stored method (a default export was compiled as GET) equals the
request method and its pattern execs against the request URL; concretely,
compiling api/blog/[id].ts exporting only POST yields the single route
POST /api/blog/:id, a POST to /api/blog/42 is handled with params
id = 42, and a GET to /api/blog/42 has no candidate and falls to the
default handler. -/
theorem candidate_iff_method_and_pattern :
    (∀ (routes : List Route) (req : Request) (m : Route × Params),
      m ∈ matchedRoutes routes req ↔
        m.1 ∈ routes ∧ execPattern m.1.pattern req.url = some m.2 ∧
          req.method = m.1.method.getD "GET") ∧
    createRoutes "routes" ""
        (.dir "api" (.dir "blog" (.file "[id].ts" ["POST"] .nil) .nil) .nil) =
      ([{ pattern := "/api/blog/:id", method := some "POST",
          handler := ("routes/api/blog/[id].ts", "POST") }], []) ∧
    (dispatch
        [{ pattern := "/api/blog/:id", method := some "POST",
            handler := ("routes/api/blog/[id].ts", "POST") }] [] ⟨[], 0⟩
        { url := "http://localhost:8000/api/blog/42", method := "POST",
          upgrade := none }).1 =
      .handled
        { pattern := "/api/blog/:id", method := some "POST",
          handler := ("routes/api/blog/[id].ts", "POST") } [("id", "42")] ∧
    matchedRoutes
        [{ pattern := "/api/blog/:id", method := some "POST",
            handler := ("routes/api/blog/[id].ts", "POST") }]
        { url := "http://localhost:8000/api/blog/42", method := "GET",
          upgrade := none } = [] ∧
    (dispatch
        [{ pattern := "/api/blog/:id", method := some "POST",
            handler := ("routes/api/blog/[id].ts", "POST") }] [] ⟨[], 0⟩
        { url := "http://localhost:8000/api/blog/42", method := "GET",
          upgrade := none }).1 = .defaulted :=
  ⟨fun _ _ _ => mem_matchedRoutes, by decide, by decide, by decide, by decide⟩

/-! Lemmas about the event map operations, for C5. -/

theorem find?_of_all_false {α : Type} {p : α → Bool} :
    ∀ (l1 : List α), (∀ x ∈ l1, p x = false) → ∀ l2 : List α,
      (l1 ++ l2).find? p = l2.find? p := by
  intro l1
  induction l1 with
  | nil => intro _ l2; simp
  | cons x xs ih =>
    intro h l2
    have hx := h x (List.mem_cons_self x xs)
    simp only [List.cons_append, List.find?_cons, hx]
    exact ih (fun y hy => h y (List.mem_cons_of_mem x hy)) l2

theorem find?_cons_pos {α : Type} {p : α → Bool} {a : α} (l : List α)
    (h : p a = true) : (a :: l).find? p = some a := by
  simp [List.find?, h]

theorem find?_cons_neg {α : Type} {p : α → Bool} {a : α} (l : List α)
    (h : p a = false) : (a :: l).find? p = l.find? p := by
  simp [List.find?, h]

theorem find?_map_update_self (k : String) (v : Handler) :
    ∀ w : WsMap, w.any (fun e => e.1 = k) = true →
      (w.map (fun e => if e.1 = k then (k, v) else e)).find?
          (fun e => e.1 = k) = some (k, v) := by
  intro w
  induction w with
  | nil => intro h; simp at h
  | cons e rest ih =>
    intro h
    rw [List.map_cons]
    by_cases he : e.1 = k
    · rw [if_pos he, find?_cons_pos _ (by simp)]
    · rw [if_neg he, find?_cons_neg _ (by simp [he])]
      refine ih ?_
      simp only [List.any_cons] at h
      rw [Bool.or_eq_true] at h
      rcases h with h1 | h2
      · exact absurd (of_decide_eq_true h1) he
      · exact h2

theorem find?_map_update_other (k k' : String) (v : Handler) (hne : k' ≠ k) :
    ∀ w : WsMap,
      (w.map (fun e => if e.1 = k then (k, v) else e)).find?
          (fun e => e.1 = k') = w.find? (fun e => e.1 = k') := by
  intro w
  induction w with
  | nil => simp
  | cons e rest ih =>
    rw [List.map_cons]
    by_cases he : e.1 = k
    · rw [if_pos he, find?_cons_neg _ (by simp [hne.symm]),
        find?_cons_neg _ (by simp [he, hne.symm])]
      exact ih
    · by_cases he2 : e.1 = k'
      · rw [if_neg he, find?_cons_pos _ (by simp [he2]),
          find?_cons_pos _ (by simp [he2])]
      · rw [if_neg he, find?_cons_neg _ (by simp [he2]),
          find?_cons_neg _ (by simp [he2])]
        exact ih

theorem find?_append_single (w : WsMap) (k k' : String) (v : Handler)
    (hne : k' ≠ k) :
    (w ++ [(k, v)]).find? (fun e => e.1 = k') =
      w.find? (fun e => e.1 = k') := by
  induction w with
  | nil =>
    rw [List.nil_append, find?_cons_neg _ (by simp [hne.symm])]
  | cons e rest ih =>
    rw [List.cons_append]
    by_cases he : e.1 = k'
    · rw [find?_cons_pos _ (by simp [he]), find?_cons_pos _ (by simp [he])]
    · rw [find?_cons_neg _ (by simp [he]), find?_cons_neg _ (by simp [he])]
      exact ih

theorem wsLookup_wsSet_self (w : WsMap) (k : String) (v : Handler) :
    wsLookup (wsSet w k v) k = some v := by
  rw [wsSet, wsLookup]
  by_cases h : w.any (fun e => e.1 = k)
  · rw [if_pos h, find?_map_update_self k v w h]
    rfl
  · rw [if_neg h]
    have hall : ∀ x ∈ w, (fun e : String × Handler => decide (e.1 = k)) x = false := by
      intro x hx
      cases hpx : (fun e : String × Handler => decide (e.1 = k)) x with
      | false => rfl
      | true => exact absurd (List.any_eq_true.2 ⟨x, hx, hpx⟩) h
    rw [find?_of_all_false w hall [(k, v)]]
    simp [List.find?]

theorem wsLookup_wsSet_other (w : WsMap) (k k' : String) (v : Handler)
    (hne : k' ≠ k) : wsLookup (wsSet w k v) k' = wsLookup w k' := by
  rw [wsSet, wsLookup, wsLookup]
  by_cases h : w.any (fun e => e.1 = k)
  · rw [if_pos h, find?_map_update_other k k' v hne w]
  · rw [if_neg h, find?_append_single w k k' v hne]

theorem wsLookup_foldl_notmem (mp : String) (evt : String) :
    ∀ (l : List String) (w : WsMap), evt ∉ l →
      wsLookup (l.foldl (fun w2 e => wsSet w2 e (mp, e)) w) evt =
        wsLookup w evt := by
  intro l
  induction l with
  | nil => intro w _; rfl
  | cons e rest ih =>
    intro w hm
    rw [List.foldl_cons, ih _ (fun hc => hm (List.mem_cons_of_mem e hc)),
      wsLookup_wsSet_other _ _ _ _
        (fun hc => hm (by rw [hc]; exact List.mem_cons_self e rest))]

theorem wsLookup_foldl_mem (mp : String) (evt : String) :
    ∀ (l : List String) (w : WsMap), evt ∈ l →
      wsLookup (l.foldl (fun w2 e => wsSet w2 e (mp, e)) w) evt =
        some (mp, evt) := by
  intro l
  induction l with
  | nil => intro w hm; cases hm
  | cons e rest ih =>
    intro w hm
    by_cases hr : evt ∈ rest
    · rw [List.foldl_cons, ih _ hr]
    · have he : evt = e := by
        rcases List.mem_cons.1 hm with h1 | h2
        · exact h1
        · exact absurd h2 hr
      subst he
      rw [List.foldl_cons, wsLookup_foldl_notmem mp evt rest _ hr,
        wsLookup_wsSet_self]

/-- A "+ws.ts" module that exports neither a default export nor any
recognized HTTP method is handled by the event-map branch of the
compiler's file case. -/
theorem processFile_wsfile (path basePath : String) (acc : List Route × WsMap)
    (exports : List String) (hd : exports.contains "default" = false)
    (hm : httpMethods.any (fun m => exports.contains m) = false) :
    processFile path basePath acc "+ws.ts" exports =
      (acc.1, exports.foldl
        (fun w evt => wsSet w evt (joinPath path "+ws.ts", evt)) acc.2) := by
  have hcond : ¬ ((exports.contains "default" ||
      httpMethods.any (fun m => exports.contains m)) = true) := by
    rw [hd, hm]; simp
  rw [processFile, if_neg hcond, if_pos rfl]

/-- C5 counterexample: a "+ws.ts" module whose only export is the function
GET is captured by the compiler's route-module branch (checked first), so
its exported symbol is NOT registered as a WebSocket event handler — the
resulting event map is empty — refuting the claim that every exported
symbol of the designated WebSocket file is registered regardless of what
the module exports. -/
theorem wsfile_method_export_not_registered :
    wsLookup (processFile "r" "" ([], []) "+ws.ts" ["GET"]).2 "GET" = none ∧
    (processFile "r" "" ([], []) "+ws.ts" ["GET"]).2 = [] ∧
    (createRoutes "r" "" (.file "+ws.ts" ["GET"] .nil)).2 = [] := by
  refine ⟨by decide, by decide, by decide⟩

/-- C5 amended: a module named "+ws.ts" that exports neither a default
export nor any recognized HTTP method contributes no RouteEntry, and every
exported symbol is registered as an event handler under its exported name;
a "+ws.ts" module exporting a recognized method or a default is instead
taken by the route-module branch, which the compiler checks first. -/
theorem wsfile_registers_events (path basePath : String)
    (acc : List Route × WsMap) (exports : List String)
    (hd : exports.contains "default" = false)
    (hm : httpMethods.any (fun m => exports.contains m) = false) :
    (processFile path basePath acc "+ws.ts" exports).1 = acc.1 ∧
    ∀ evt ∈ exports,
      wsLookup (processFile path basePath acc "+ws.ts" exports).2 evt =
        some (joinPath path "+ws.ts", evt) := by
  rw [processFile_wsfile path basePath acc exports hd hm]
  exact ⟨rfl, fun evt he => wsLookup_foldl_mem _ _ _ _ he⟩

/-! Lemmas about pathBase on URLs with query strings, for C10. -/

theorem mem_of_mem_takeWhile {α : Type} {p : α → Bool} {l : List α} {a : α}
    (h : a ∈ l.takeWhile p) : a ∈ l := by
  have hsplit := List.takeWhile_append_dropWhile p l
  rw [← hsplit]
  exact List.mem_append_left _ h

theorem mem_of_mem_dropWhile {α : Type} {p : α → Bool} {l : List α} {a : α}
    (h : a ∈ l.dropWhile p) : a ∈ l := by
  have hsplit := List.takeWhile_append_dropWhile p l
  rw [← hsplit]
  exact List.mem_append_right _ h

/-- Every character of a string's path base occurs in the string. -/
theorem mem_data_of_mem_pathBase {s : String} {c : Char}
    (h : c ∈ (pathBase s).data) : c ∈ s.data := by
  have h1 : c ∈ ((s.data.reverse.dropWhile (fun c => c = '/')).takeWhile
      (fun c => c ≠ '/')).reverse := h
  rw [List.mem_reverse] at h1
  exact List.mem_reverse.1 (mem_of_mem_dropWhile (mem_of_mem_takeWhile h1))

theorem dropWhile_cons_neg {α : Type} {p : α → Bool} {a : α} (l : List α)
    (h : p a = false) : (a :: l).dropWhile p = a :: l := by
  simp [List.dropWhile, h]

theorem takeWhile_cons_pos {α : Type} {p : α → Bool} {a : α} (l : List α)
    (h : p a = true) : (a :: l).takeWhile p = a :: l.takeWhile p := by
  simp [List.takeWhile, h]

theorem takeWhile_append_all {α : Type} {p : α → Bool} :
    ∀ (l1 l2 : List α), (∀ c ∈ l1, p c = true) →
      (l1 ++ l2).takeWhile p = l1 ++ l2.takeWhile p := by
  intro l1
  induction l1 with
  | nil => intro l2 _; simp
  | cons x xs ih =>
    intro l2 h
    rw [List.cons_append, takeWhile_cons_pos _ (h x (List.mem_cons_self x xs)),
      ih l2 (fun c hc => h c (List.mem_cons_of_mem x hc)), List.cons_append]

/-- When a URL contains a question mark and no slash occurs at or after
the first question mark, the URL string's path base (computed by the
dispatcher's tie-break on the full URL string) contains the question
mark. -/
theorem query_mem_pathBase {u : String}
    (hq : '?' ∈ u.data)
    (hqs : ∀ c ∈ u.data.dropWhile (fun c => c ≠ '?'), c ≠ '/') :
    '?' ∈ (pathBase u).data := by
  have hsplit : u.data.takeWhile (fun c => c ≠ '?') ++
      u.data.dropWhile (fun c => c ≠ '?') = u.data :=
    List.takeWhile_append_dropWhile _ _
  have hq' : '?' ∈ u.data.takeWhile (fun c => c ≠ '?') ++
      u.data.dropWhile (fun c => c ≠ '?') := by rw [hsplit]; exact hq
  have hqtl : '?' ∈ u.data.dropWhile (fun c => c ≠ '?') := by
    rcases List.mem_append.1 hq' with h1 | h2
    · have := List.mem_takeWhile_imp h1
      simp at this
    · exact h2
  have htlne : u.data.dropWhile (fun c => c ≠ '?') ≠ [] := by
    intro h
    rw [h] at hqtl
    cases hqtl
  have hrevne : (u.data.dropWhile (fun c => c ≠ '?')).reverse ≠ [] := by
    intro h
    exact htlne (List.reverse_eq_nil_iff.1 h)
  obtain ⟨a, rest, har⟩ := List.exists_cons_of_ne_nil hrevne
  have hamem : a ∈ u.data.dropWhile (fun c => c ≠ '?') := by
    rw [← List.mem_reverse, har]
    exact List.mem_cons_self a rest
  have ha : a ≠ '/' := hqs a hamem
  have hudata : u.data.reverse =
      (a :: rest) ++ (u.data.takeWhile (fun c => c ≠ '?')).reverse := by
    rw [← har, ← List.reverse_append, hsplit]
  have hdrop : u.data.reverse.dropWhile (fun c => c = '/') = u.data.reverse := by
    rw [hudata, List.cons_append]
    exact dropWhile_cons_neg _ (by simp [ha])
  have hallrev : ∀ c ∈ (a :: rest), (fun c : Char => decide (c ≠ '/')) c = true := by
    intro c hc
    have hcm : c ∈ u.data.dropWhile (fun c => c ≠ '?') := by
      rw [← List.mem_reverse, har]
      exact hc
    simp [hqs c hcm]
  have hpb : (pathBase u).data =
      ((u.data.reverse.dropWhile (fun c => c = '/')).takeWhile
        (fun c => c ≠ '/')).reverse := rfl
  rw [hpb, hdrop, hudata, takeWhile_append_all _ _ hallrev, List.mem_reverse]
  apply List.mem_append_left
  rw [← har, List.mem_reverse]
  exact hqtl

/-- C10 counterexample: the request GET http://h/a/post?x=/post (its URL
contains a query string) against the scan-ordered routes /a/:id then
/a/post: the query itself contains a slash, so the final slash-separated
segment of the full URL string is "post", trailing-segment equality with
the literal route's pattern base HOLDS, and the dispatcher selects the
literal route — the last trailing-equal match — not the first match in
scan order. -/
theorem query_url_tiebreak_counterexample :
    '?' ∈ ("http://h/a/post?x=/post" : String).data ∧
    matchedRoutes
        [{ pattern := "/a/:id", method := some "GET", handler := ("r/[id].ts", "GET") },
          { pattern := "/a/post", method := some "GET", handler := ("r/post.ts", "default") }]
        { url := "http://h/a/post?x=/post", method := "GET", upgrade := none } =
      [({ pattern := "/a/:id", method := some "GET", handler := ("r/[id].ts", "GET") },
          [("id", "post")]),
        ({ pattern := "/a/post", method := some "GET", handler := ("r/post.ts", "default") },
          [])] ∧
    tieCond { url := "http://h/a/post?x=/post", method := "GET", upgrade := none }
      ({ pattern := "/a/post", method := some "GET", handler := ("r/post.ts", "default") },
        []) = true ∧
    (dispatch
        [{ pattern := "/a/:id", method := some "GET", handler := ("r/[id].ts", "GET") },
          { pattern := "/a/post", method := some "GET", handler := ("r/post.ts", "default") }]
        [] ⟨[], 0⟩
        { url := "http://h/a/post?x=/post", method := "GET", upgrade := none }).1 =
      .handled
        { pattern := "/a/post", method := some "GET", handler := ("r/post.ts", "default") }
        [] := by
  refine ⟨by decide, by decide, by decide, by decide⟩

/-- C10 amended: for a non-upgrade request whose URL contains a query
string with no slash at or after the first question mark, against routes
whose pattern pathnames contain no question mark, the tie-break compares
the final segment of the full URL string — which then contains the
question mark — against pattern bases that cannot contain one, so
trailing-segment equality never holds and the dispatcher selects the
first match in scan order. -/
theorem query_url_tiebreak_first (routes : List Route) (ws : WsMap)
    (s : CacheState) (req : Request) (hf : s.fresh)
    (hup : req.upgrade ≠ some "websocket")
    (hq : '?' ∈ req.url.data)
    (hqs : ∀ c ∈ req.url.data.dropWhile (fun c => c ≠ '?'), c ≠ '/')
    (hpat : ∀ r ∈ routes, '?' ∉ r.pattern.data)
    (m0 : Route × Params) (ms : List (Route × Params))
    (hm : matchedRoutes routes req = m0 :: ms) :
    (dispatch routes ws s req).1 = .handled m0.1 m0.2 := by
  have hqb : '?' ∈ (pathBase req.url).data := query_mem_pathBase hq hqs
  have hties : ∀ m ∈ matchedRoutes routes req, tieCond req m = false := by
    intro m hmem
    cases hcond : tieCond req m with
    | false => rfl
    | true =>
      have heq : pathBase m.1.pattern = pathBase req.url :=
        of_decide_eq_true hcond
      have h1 : '?' ∈ (pathBase m.1.pattern).data := by rw [heq]; exact hqb
      have h2 : '?' ∈ m.1.pattern.data := mem_data_of_mem_pathBase h1
      have h3 : m.1 ∈ routes := (mem_matchedRoutes.1 hmem).1
      exact absurd h2 (hpat m.1 h3)
  have hfil : (matchedRoutes routes req).filter (tieCond req) = [] := by
    rw [List.filter_eq_nil_iff]
    intro m hmem
    rw [hties m hmem]
    exact Bool.false_ne_true
  have hb : bestMatch req (m0 :: ms) = none := by
    rw [bestMatch_eq_getLast, ← hm, hfil]
    rfl
  rw [dispatch_miss hf hup]
  simp [hm, hb]

theorem query_url_tiebreak_first_witness :
    ('?' ∈ ("http://h/a/post?x=1" : String).data ∧
      matchedRoutes
        [{ pattern := "/a/:id", method := some "GET", handler := ("r/[id].ts", "GET") },
          { pattern := "/a/post", method := some "GET", handler := ("r/post.ts", "default") }]
        { url := "http://h/a/post?x=1", method := "GET", upgrade := none } =
      [({ pattern := "/a/:id", method := some "GET", handler := ("r/[id].ts", "GET") },
          [("id", "post")]),
        ({ pattern := "/a/post", method := some "GET", handler := ("r/post.ts", "default") },
          [])]) ∧
    (dispatch
        [{ pattern := "/a/:id", method := some "GET", handler := ("r/[id].ts", "GET") },
          { pattern := "/a/post", method := some "GET", handler := ("r/post.ts", "default") }]
        [] ⟨[], 0⟩
        { url := "http://h/a/post?x=1", method := "GET", upgrade := none }).1 =
      .handled
        { pattern := "/a/:id", method := some "GET", handler := ("r/[id].ts", "GET") }
        [("id", "post")] :=
  ⟨⟨by decide, by decide⟩,
    query_url_tiebreak_first _ _ _ _
      (fun e he => absurd he (List.not_mem_nil e)) (by decide) (by decide)
      (by decide) (by decide)
      ({ pattern := "/a/:id", method := some "GET", handler := ("r/[id].ts", "GET") },
        [("id", "post")])
      [({ pattern := "/a/post", method := some "GET", handler := ("r/post.ts", "default") },
        [])]
      (by decide)⟩

/-! Lemmas about the derived route path of parameter modules, for C8. -/

theorem collapseAux_no_slash (prev : Option Char) :
    ∀ l : List Char, (∀ c ∈ l, c ≠ '/') → collapseAux prev l = l := by
  intro l
  induction l generalizing prev with
  | nil => intro _; rfl
  | cons c rest ih =>
    intro h
    have hc := h c (List.mem_cons_self c rest)
    simp only [collapseAux]
    rw [if_neg (fun hand => hc hand.1)]
    exact congrArg (c :: ·) (ih (some c) (fun x hx => h x (List.mem_cons_of_mem c hx)))

theorem paramMatch_wordChars {name pname : String}
    (hp : paramMatch name = some pname) :
    ∀ c ∈ pname.data, wordChar c = true := by
  unfold paramMatch at hp
  split at hp
  · exact absurd hp (fun hc => Option.noConfusion hc)
  · split at hp
    · split at hp
      · split at hp
        · exact absurd hp (fun hc => Option.noConfusion hc)
        · injection hp with hpe
          subst hpe
          intro c hc
          exact List.mem_takeWhile_imp (List.mem_reverse.1 hc)
      · exact absurd hp (fun hc => Option.noConfusion hc)
    · exact absurd hp (fun hc => Option.noConfusion hc)

/-- C8: a module whose filename matches the bracketed-parameter form,
compiled under accumulated base path P, derives the route path obtained by
appending one trailing capture segment for the captured name to P and
collapsing duplicate separators; at the root (empty base path) the derived
path is exactly the single capture segment. -/
theorem paramfile_route_path (basePath name pname : String)
    (hp : paramMatch name = some pname) :
    routePathFor basePath name =
      collapseSlashes ("/" ++ basePath ++ "/:" ++ pname) ∧
    (basePath = "" → routePathFor basePath name = "/:" ++ pname) := by
  have hne : name ≠ "index.ts" := by
    intro h
    rw [h, show paramMatch "index.ts" = none from by decide] at hp
    exact Option.noConfusion hp
  have hword : ∀ c ∈ pname.data, wordChar c = true := paramMatch_wordChars hp
  have hnoslash : ∀ c ∈ pname.data, c ≠ '/' := by
    intro c hc hcontra
    have hw := hword c hc
    rw [hcontra] at hw
    exact absurd hw (by decide)
  constructor
  · simp only [routePathFor, if_neg hne, hp]
    by_cases hb : basePath = ""
    · subst hb
      rw [if_pos rfl]
      rfl
    · rw [if_neg hb]
  · intro hb
    subst hb
    simp only [routePathFor, if_neg hne, hp, if_pos rfl]
    show String.mk ('/' :: ':' :: collapseAux (some ':') pname.data) =
      "/:" ++ pname
    rw [collapseAux_no_slash (some ':') pname.data hnoslash]
    rfl

theorem paramfile_route_path_witness :
    (paramMatch "[id].ts" = some "id" ∧
      routePathFor "api/blog" "[id].ts" =
        collapseSlashes ("/" ++ "api/blog" ++ "/:" ++ "id")) ∧
    routePathFor "" "[id].ts" = "/:" ++ "id" :=
  ⟨⟨by decide, (paramfile_route_path "api/blog" "[id].ts" "id" (by decide)).1⟩,
    (paramfile_route_path "" "[id].ts" "id" (by decide)).2 rfl⟩

theorem wsfile_registers_events_witness :
    (["open", "message", "close"].contains "default" = false ∧
      httpMethods.any (fun m => ["open", "message", "close"].contains m) = false) ∧
    ((processFile "tests/api" "api" ([], []) "+ws.ts"
        ["open", "message", "close"]).1 = [] ∧
      ∀ evt ∈ ["open", "message", "close"],
        wsLookup (processFile "tests/api" "api" ([], []) "+ws.ts"
            ["open", "message", "close"]).2 evt =
          some (joinPath "tests/api" "+ws.ts", evt)) :=
  ⟨⟨by decide, by decide⟩,
    wsfile_registers_events "tests/api" "api" ([], [])
      ["open", "message", "close"] (by decide) (by decide)⟩

end Milo
